import Mathlib

/-!
Verification of the FileFinder scanning engine (package `internal`).

The Go source is shallowly embedded: every definition below is a direct
translation of a function of the repository, at the granularity of lines
and list operations.  File contents are lists of line chunks exactly as
`bufio.Reader.ReadBytes` yields them; machine concerns (syscalls, the
archive library, regular-expression compilation) are abstracted behind
oracles that the theorems quantify over.
-/

namespace FileFinder

/-! ## Go string primitives

Character-list models of the `strings` / `path/filepath` functions the
engine uses.  Lean `String` in this toolchain is a structure holding
`data : List Char`, so the models compute on `.data` directly.  Unicode
lowering is modelled at ASCII precision (`Char.toLower`), which is exact
for every string appearing in the claims. -/

/-- Model of `strings.Contains` on character lists: does `needle` occur
as a contiguous run inside `hay`? -/
def containsL : List Char → List Char → Bool
  | hay, needle =>
    if needle.isPrefixOf hay then true
    else
      match hay with
      | [] => false
      | _ :: t => containsL t needle

/-- Model of `strings.Contains s sub`. -/
def strContains (s sub : String) : Bool :=
  containsL s.data sub.data

/-- Model of `strings.ToLower` (ASCII precision). -/
def lowerStr (s : String) : String :=
  ⟨s.data.map Char.toLower⟩

/-- Model of `strings.HasPrefix`. -/
def hasPrefixS (s pre : String) : Bool :=
  pre.data.isPrefixOf s.data

/-- Model of Go slicing `line[n:]` for an ASCII prefix of length `n`. -/
def dropS (s : String) (n : Nat) : String :=
  ⟨s.data.drop n⟩

/-- Model of `strings.TrimSpace` (ASCII whitespace). -/
def trimS (s : String) : String :=
  ⟨((s.data.dropWhile Char.isWhitespace).reverse.dropWhile Char.isWhitespace).reverse⟩

/-- Model of `strings.Count rel sep` for the single-character separator. -/
def countSep (s : String) : Nat :=
  (s.data.filter (fun c => c = '/')).length

/-- Concatenation of the chunks delivered by the buffered reader: the raw
byte content of the stream. -/
def joinStr (ls : List String) : String :=
  String.join ls

/-! ## Pattern engine (`internal/matcher.go`) -/

/-- Abstract compiled regular expression: the engine only consumes
`regexp.Regexp` through `MatchString` and `String`, so the embedding
keeps exactly those two capabilities (`matcher.go:19-22`). -/
structure AbsRegex where
  matchString : String → Bool
  pattern : String

/-- The `Pattern` variants of `matcher.go`: `RegexPattern` and
`PlainPattern{s, insensitive}`. -/
inductive Pattern where
  | regex (re : AbsRegex)
  | plain (s : String) (insensitive : Bool)

/-- `Pattern.Match` (`matcher.go:21,29-34`): a regex tests the line; an
insensitive plain pattern lowers the line (its own text was lowered at
load time) and checks containment; a sensitive one checks containment
directly. -/
def Pattern.matchB : Pattern → String → Bool
  | .regex re, s => re.matchString s
  | .plain p true, s => strContains (lowerStr s) p
  | .plain p false, s => strContains s p

/-- `Pattern.Desc` (`matcher.go:22,36-41`). -/
def Pattern.desc : Pattern → String
  | .regex re => re.pattern
  | .plain p true => "plain:i:" ++ p
  | .plain p false => p

/-- The skip test of the `LoadPatterns` loop (`matcher.go:61-63`): blank
lines and comment lines are dropped.  `keepLine l = true` means the
trimmed line `l` produces a pattern. -/
def keepLine (l : String) : Bool :=
  !(l.data.isEmpty || hasPrefixS l "#")

/-- `LoadPatterns` (`matcher.go:49-83`) over the list of lines of the
pattern file, parameterised by the regex compiler `compile` (Go
`regexp.Compile`, `none` = compilation error).  Returns the pattern
list together with the `hasInsensitive` flag, or the error message. -/
def loadPatterns (compile : String → Option AbsRegex) :
    List String → Except String (List Pattern × Bool)
  | [] => .ok ([], false)
  | l :: ls =>
    let line := trimS l
    if keepLine line then
      if hasPrefixS line "re:" then
        match compile (dropS line 3) with
        | none => .error ("invalid regex " ++ line.data.asString)
        | some re =>
          (loadPatterns compile ls).map (fun r => (Pattern.regex re :: r.1, r.2))
      else if hasPrefixS line "plain:i:" then
        (loadPatterns compile ls).map
          (fun r => (Pattern.plain (lowerStr (dropS line 8)) true :: r.1, true))
      else
        (loadPatterns compile ls).map (fun r => (Pattern.plain line false :: r.1, r.2))
    else
      loadPatterns compile ls

/-- Spec-side view: the non-blank, non-comment trimmed lines of a pattern
file, in file order. -/
def keptLines (lines : List String) : List String :=
  (lines.map trimS).filter keepLine

/-- Spec-side view: the pattern one kept line compiles to. -/
def classifyLine (compile : String → Option AbsRegex) (l : String) : Option Pattern :=
  if hasPrefixS l "re:" then (compile (dropS l 3)).map .regex
  else if hasPrefixS l "plain:i:" then some (.plain (lowerStr (dropS l 8)) true)
  else some (.plain l false)

/-- A kept line is valid when, if it is a regex line, its body compiles. -/
def validLine (compile : String → Option AbsRegex) (l : String) : Prop :=
  hasPrefixS l "re:" → (compile (dropS l 3)).isSome

/-! ## Content scanner (`internal/reader.go`, current version, lines 17-128) -/

/-- `MatchResult` (`stats.go:98-107`), with the Go `error` field modelled
as an optional message. -/
structure MatchResult where
  filePath : String := ""
  innerPath : String := ""
  lineNumber : Nat := 0
  line : String := ""
  matched : Bool := false
  errMsg : Option String := none
  pattern : String := ""
deriving DecidableEq, Repr

/-- `finalSavePath` (`reader.go:130-143`) on a POSIX system, where
`os.PathSeparator` is the slash: the archive/file path has slashes,
backslashes and colons replaced by underscores; the inner path has only
slashes and backslashes replaced.  `filepath.Join` is modelled as
slash-joining of the already clean components. -/
def finalSavePath (folder filePath innerPath : String) : String :=
  let base : String :=
    ⟨filePath.data.map (fun c => if c = '/' || c = '\\' || c = ':' then '_' else c)⟩
  if innerPath.data = [] then
    folder ++ "/" ++ base
  else
    let inner : String :=
      ⟨innerPath.data.map (fun c => if c = '/' || c = '\\' then '_' else c)⟩
    folder ++ "/" ++ base ++ "/" ++ inner

/-- State of the temporary tee file inside `matchReader`: `active` while
it exists under its temporary name (its content is the full stream, the
tee having filled it from the buffered read; exact for streams within one
64 KiB buffer fill), `renamed` after the `os.Rename` into place, `noTmp`
when no temp file was created (line mode, or empty folder). -/
inductive TmpSt where
  | active
  | renamed
  | noTmp
deriving DecidableEq, Repr

/-- Aggregate outcome of one `matchReader` run: callback invocations in
order, counter deltas, the file made visible by `os.Rename` (path and
content), and whether a temporary file is left in the folder. -/
structure RunResult where
  results : List MatchResult
  matchDelta : Nat
  errDelta : Nat
  saved : Option (String × String)
  tmpRemains : Bool
deriving DecidableEq, Repr

/-- The successful save-full callback value (`reader.go:98`). -/
def matchedResult (filePath innerPath : String) (p : Pattern) : MatchResult :=
  { filePath := filePath, innerPath := innerPath, matched := true, pattern := p.desc }

/-- The error callback value of the scanner (`reader.go:86,94,112`). -/
def errorResult (filePath innerPath msg : String) : MatchResult :=
  { filePath := filePath, innerPath := innerPath, errMsg := some msg }

/-- The line a pattern is tested against (`reader.go:61-68`): when
`hasInsensitive` is set the line is lowered once and every pattern is
tested against the lowered copy, otherwise the original line is used. -/
def lineForCheck (hasIns : Bool) (l : String) : String :=
  if hasIns then lowerStr l else l

/-- Does some pattern fire on this chunk (`reader.go:70-72`)? -/
def lineHit (ps : List Pattern) (hasIns : Bool) (l : String) : Bool :=
  (ps.find? (fun p => p.matchB (lineForCheck hasIns l))).isSome

/-- The read loop of `matchReader` (`reader.go:55-127`) over the chunk
list.  Per chunk: find the first firing pattern; on a hit in save-full
mode, sync and rename the active temp file and emit the matched result
(`reader.go:76-99`); a hit with the temp already renamed makes the second
`os.Rename` fail, emitting an error result and returning early
(`reader.go:92-96`); a hit without a temp file still emits the save-full
result.  In line mode a hit only bumps the match counter - no callback
is invoked.  After the loop the temp file is removed when no line
matched (`reader.go:119-127`). -/
def mrRun (ps : List Pattern) (hasIns saveFull : Bool)
    (folder filePath innerPath full : String) :
    List String → TmpSt → Bool → RunResult
  | [], tmp, found =>
    { results := [], matchDelta := 0, errDelta := 0, saved := none,
      tmpRemains := tmp = TmpSt.active && found }
  | l :: rest, tmp, found =>
    match ps.find? (fun p => p.matchB (lineForCheck hasIns l)) with
    | none => mrRun ps hasIns saveFull folder filePath innerPath full rest tmp found
    | some p =>
      if saveFull then
        match tmp with
        | .active =>
          let r := mrRun ps hasIns saveFull folder filePath innerPath full rest .renamed true
          { r with
            results := matchedResult filePath innerPath p :: r.results,
            matchDelta := r.matchDelta + 1,
            saved := some (finalSavePath folder filePath innerPath, full) }
        | .renamed =>
          { results := [errorResult filePath innerPath "rename"],
            matchDelta := 0, errDelta := 1, saved := none, tmpRemains := false }
        | .noTmp =>
          let r := mrRun ps hasIns saveFull folder filePath innerPath full rest .noTmp true
          { r with
            results := matchedResult filePath innerPath p :: r.results,
            matchDelta := r.matchDelta + 1 }
      else
        let r := mrRun ps hasIns saveFull folder filePath innerPath full rest tmp true
        { r with matchDelta := r.matchDelta + 1 }

/-- `matchReader` (`reader.go:17-128`): sets up the temp tee file when
`saveFull` with a non-empty folder (`reader.go:35-46`), then runs the
read loop over the chunks of the stream. -/
def matchReaderM (ps : List Pattern) (hasIns saveFull : Bool)
    (folder filePath innerPath : String) (content : List String) : RunResult :=
  let tmp0 : TmpSt := if saveFull && !(folder.data = []) then .active else .noTmp
  mrRun ps hasIns saveFull folder filePath innerPath (joinStr content) content tmp0 false

/-! ### Buffer-fill granularity

`mrRun` above idealizes the tee: it hands the whole stream to the temp
file, which is exact only while the stream fits in one 64 KiB fill of
the buffered reader (`reader.go:48`).  The definitions below model the
fills explicitly: the input is the list of successive blocks the
buffered reader fetches from the tee, each block a list of line chunks.
The tee writes a whole block to the temp file at the moment the reader
fetches it, so the temp file holds exactly the fetched prefix; and once
the temp file has been closed by the rename (`reader.go:90-92`), the
next fetch makes the tee write into a closed file, which surfaces as a
read error in the scan loop (`reader.go:109-114`). -/

/-- Byte concatenation of a list of chunks. -/
def catStr : List String → String
  | [] => ""
  | s :: rest => s ++ catStr rest

/-- Outcome of scanning the lines of one fetched block: callback
invocations, counter deltas, a rename if one fired (path and the bytes
fetched so far), whether the second-rename failure aborted the loop
early (`reader.go:92-96`), and the temp state and found flag handed to
the rest of the stream. -/
structure LinesOut where
  results : List MatchResult
  matchDelta : Nat
  errDelta : Nat
  saved : Option (String × String)
  earlyStop : Bool
  tmp : TmpSt
  found : Bool
deriving DecidableEq, Repr

/-- The per-line loop of `matchReader` (`reader.go:55-107`) over the
lines of the current block; `consumed` is the byte prefix the tee has
written to the temp file when these lines are scanned. -/
def scanLines (ps : List Pattern) (hasIns saveFull : Bool)
    (folder fp ip consumed : String) : List String → TmpSt → Bool → LinesOut
  | [], tmp, found =>
    { results := [], matchDelta := 0, errDelta := 0, saved := none,
      earlyStop := false, tmp := tmp, found := found }
  | l :: rest, tmp, found =>
    match ps.find? (fun p => p.matchB (lineForCheck hasIns l)) with
    | none => scanLines ps hasIns saveFull folder fp ip consumed rest tmp found
    | some p =>
      if saveFull then
        match tmp with
        | .active =>
          let s := scanLines ps hasIns saveFull folder fp ip consumed rest .renamed true
          { s with results := matchedResult fp ip p :: s.results,
                   matchDelta := s.matchDelta + 1,
                   saved := some (finalSavePath folder fp ip, consumed) }
        | .renamed =>
          { results := [errorResult fp ip "rename"], matchDelta := 0, errDelta := 1,
            saved := none, earlyStop := true, tmp := .renamed, found := found }
        | .noTmp =>
          let s := scanLines ps hasIns saveFull folder fp ip consumed rest .noTmp true
          { s with results := matchedResult fp ip p :: s.results,
                   matchDelta := s.matchDelta + 1 }
      else
        let s := scanLines ps hasIns saveFull folder fp ip consumed rest tmp true
        { s with matchDelta := s.matchDelta + 1 }

/-- The fetch loop of `matchReader` over the successive buffer fills.
Fetching a block while the temp file is closed (renamed) makes the
tee's write fail, so the read loop emits one error result and breaks
(`reader.go:109-114`); reaching the end of the stream breaks cleanly
and runs the cleanup (`reader.go:119-127`); the early return from a
failed second rename skips the cleanup. -/
def scanFills (ps : List Pattern) (hasIns saveFull : Bool)
    (folder fp ip : String) (consumed : String) :
    List (List String) → TmpSt → Bool → RunResult
  | [], tmp, found =>
    { results := [], matchDelta := 0, errDelta := 0, saved := none,
      tmpRemains := tmp = TmpSt.active && found }
  | fill :: rest, tmp, found =>
    if tmp = TmpSt.renamed then
      { results := [errorResult fp ip "write"], matchDelta := 0, errDelta := 1,
        saved := none, tmpRemains := false }
    else
      let consumed2 := consumed ++ catStr fill
      let s := scanLines ps hasIns saveFull folder fp ip consumed2 fill tmp found
      if s.earlyStop then
        { results := s.results, matchDelta := s.matchDelta, errDelta := s.errDelta,
          saved := s.saved, tmpRemains := false }
      else
        let r := scanFills ps hasIns saveFull folder fp ip consumed2 rest s.tmp s.found
        { results := s.results ++ r.results,
          matchDelta := s.matchDelta + r.matchDelta,
          errDelta := s.errDelta + r.errDelta,
          saved := (match s.saved with | some v => some v | none => r.saved),
          tmpRemains := r.tmpRemains }

/-- `matchReader` (`reader.go:17-128`) at buffer-fill granularity: the
stream arrives as the successive blocks the 64 KiB buffered reader
fetches from the tee; nothing is fetched yet at entry. -/
def matchReaderBufM (ps : List Pattern) (hasIns saveFull : Bool)
    (folder filePath innerPath : String) (fills : List (List String)) : RunResult :=
  let tmp0 : TmpSt := if saveFull && !(folder.data = []) then .active else .noTmp
  scanFills ps hasIns saveFull folder filePath innerPath "" fills tmp0 false

/-! ## Filesystem helpers (`internal/fs.go`, `internal/options.go`) -/

/-- Tail recursion for `extOf`: walk the name backwards collecting the
characters after the last dot of the final path element. -/
def extOfGo : List Char → List Char → String
  | [], _ => ""
  | c :: rest, acc =>
    if c = '/' then ""
    else if c = '.' then ⟨'.' :: acc⟩
    else extOfGo rest (c :: acc)

/-- Model of `filepath.Ext`: the suffix of the final path element
starting at its last dot, or empty when it has no dot. -/
def extOf (s : String) : String :=
  extOfGo s.data.reverse []

/-- The archive-extension set (`fs.go:20-24`). -/
def archiveExts : List String :=
  [".zip", ".tar", ".gz", ".bz2", ".xz", ".rar", ".br", ".lz4",
   ".lz", ".mz", ".sz", ".s2", ".zz", ".zst", ".7z"]

/-- `IsArchive` (`fs.go:126-129`): lower-cased extension membership. -/
def isArchiveB (path : String) : Bool :=
  archiveExts.contains (lowerStr (extOf path))

/-- The option fields the walker and workers consult (`options.go:9-25`);
the whitelist / blacklist hash sets are modelled as the lists they are
built from. -/
structure ScanOpts where
  whitelist : List String := []
  blacklist : List String := []
  archives : Bool := false
  saveFull : Bool := false
  saveFullFolder : String := ""
  failFast : Bool := false

/-- `ScanOptions.allowedExt` (`options.go:60-71`): a non-empty whitelist
fully decides membership; otherwise an empty blacklist admits everything
and a non-empty one excludes its members. -/
def ScanOpts.allowedExt (o : ScanOpts) (ext : String) : Bool :=
  if !o.whitelist.isEmpty then o.whitelist.contains ext
  else if o.blacklist.isEmpty then true
  else !o.blacklist.contains ext

/-- `Task` (`fs.go:27-31`). -/
structure Task where
  path : String
  innerPath : String := ""
  isArchive : Bool := false
deriving DecidableEq, Repr

/-! ## Archive walk (`fs.go:78-109`) -/

/-- The zip-bomb ceiling `maxArchiveFiles` (`fs.go:17`). -/
def maxArchiveFiles : Nat := 10000

/-- One entry handed to the `WalkDir` callback inside an archive: its
inner path, whether it is a directory, and whether the walk reported an
error for it. -/
structure ArchEntry where
  inner : String
  isDir : Bool := false
  hasErr : Bool := false
deriving DecidableEq, Repr

/-- Is this entry a file the archive walker would emit (no error, not a
directory, extension admitted)? -/
def archAllowed (o : ScanOpts) (e : ArchEntry) : Bool :=
  !e.hasErr && !e.isDir && o.allowedExt (lowerStr (extOf e.inner))

/-- The counting loop of `WalkArchive` (`fs.go:88-108`): errored and
directory entries are skipped; once `count` has reached the ceiling the
next file entry stops the walk with a warning (the returned `error` is
discarded by `WalkArchive`, line 89); surviving entries become tasks.
Returns the emitted tasks and whether the ceiling warning fired. -/
def walkArchiveGo (o : ScanOpts) (path : String) :
    List ArchEntry → Nat → List Task × Bool
  | [], _ => ([], false)
  | e :: rest, count =>
    if e.hasErr || e.isDir then walkArchiveGo o path rest count
    else if decide (maxArchiveFiles ≤ count) then ([], true)
    else if !o.allowedExt (lowerStr (extOf e.inner)) then walkArchiveGo o path rest count
    else
      let r := walkArchiveGo o path rest (count + 1)
      (⟨path, e.inner, true⟩ :: r.1, r.2)

/-- `WalkArchive` (`fs.go:78-109`), starting the entry count at zero.
The function itself returns nothing to its caller in Go; the model
returns the emitted tasks plus the warning flag, and in particular has
no error component to propagate. -/
def walkArchiveM (o : ScanOpts) (path : String) (entries : List ArchEntry) :
    List Task × Bool :=
  walkArchiveGo o path entries 0

/-! ## Depth-bounded directory walk (`fs.go:59-75`, `fs.go:111-116`) -/

/-- `depthCount` (`fs.go:111-116`): zero for the empty relative path,
otherwise one more than the number of separators. -/
def depthCount (rel : String) : Nat :=
  if rel.data = [] then 0 else countSep rel + 1

/-- The pruning test of `WalkWithDepth` (`fs.go:67-72`): a positive
`maxDepth`, a relative path other than the root dot, and a depth count
beyond the bound make the walker return `filepath.SkipDir`. -/
def prunedB (maxDepth : Nat) (rel : String) : Bool :=
  decide (0 < maxDepth) && !(rel = ".") && decide (maxDepth < depthCount rel)

/-- A directory tree: a named node with its children (a file is a
leaf). -/
inductive FTree where
  | node (name : String) (children : List FTree)

/-- Name accessor for `FTree`. -/
def FTree.name : FTree → String
  | .node n _ => n

/-- Children accessor for `FTree`. -/
def FTree.children : FTree → List FTree
  | .node _ cs => cs

/-- The relative path `filepath.Rel root` gives a child of the entry at
relative path `r`: names accumulate behind slashes, starting from the
root dot. -/
def childRel (r n : String) : String :=
  if r = "." then n else r ++ "/" ++ n

mutual

/-- The visit list of `WalkWithDepth` (`fs.go:59-75`): the callback runs
on an entry unless the pruning test fires, in which case the entire
subtree is skipped (`filepath.SkipDir`). -/
def visitT (maxDepth : Nat) (r : String) : FTree → List String
  | .node _ cs => if prunedB maxDepth r then [] else r :: visitChildren maxDepth r cs

/-- The visit lists of the children of a directory at relative path `r`,
concatenated in order. -/
def visitChildren (maxDepth : Nat) (r : String) : List FTree → List String
  | [] => []
  | c :: cs =>
    visitT maxDepth (childRel r c.name) c ++ visitChildren maxDepth r cs

end

mutual

/-- Every relative path of the tree, with no pruning at all. -/
def pathsT (r : String) : FTree → List String
  | .node _ cs => r :: pathsChildren r cs

/-- The relative paths inside the children of a directory at `r`. -/
def pathsChildren (r : String) : List FTree → List String
  | [] => []
  | c :: cs => pathsT (childRel r c.name) c ++ pathsChildren r cs

end

/-! ## Scan controller (`internal/stats.go`, current version, lines 90-342) -/

/-- The error kinds `Scan` distinguishes; `walkFailFast` is the sentinel
`ErrWalkFailFast` (`stats.go:90`). -/
inductive ScanErr where
  | walkFailFast
  | other (msg : String)
deriving DecidableEq, Repr

/-- One event delivered to the walker callback inside `Scan`
(`stats.go:210-246`): either a regular entry with its path, base name and
directory flag, or a traversal error for a path. -/
inductive WalkEntry where
  | ent (path name : String) (isDir : Bool)
  | fail (path : String)
deriving DecidableEq, Repr

/-- Outcome of walking one root: tasks pushed to the channel, error
results sent to the callback, counter deltas, and the value
`WalkWithDepth` returns for this root. -/
structure WalkOut where
  tasks : List Task
  results : List MatchResult
  errDelta : Nat
  foundDelta : Nat
  ret : Option ScanErr
deriving DecidableEq, Repr

/-- Concatenation of two `WalkOut` values (a later root continuing after
an earlier one). -/
def WalkOut.append (a b : WalkOut) : WalkOut :=
  { tasks := a.tasks ++ b.tasks, results := a.results ++ b.results,
    errDelta := a.errDelta + b.errDelta, foundDelta := a.foundDelta + b.foundDelta,
    ret := b.ret }

/-- The walker callback of `Scan` over one root (`stats.go:210-246`),
fed the event stream of `WalkWithDepth`.  A traversal error bumps the
error counter, emits an error result, and under fail-fast aborts this
walk with the sentinel (`stats.go:214-221`).  Directories are skipped;
the extension filter runs on the lower-cased extension of the base name;
archive files are expanded through `WalkArchive` when enabled, each sent
archive task also bumping `found` in the send closure (`stats.go:229-236`);
plain files bump `found` and become tasks. -/
def walkRoot (o : ScanOpts) (archEntries : String → List ArchEntry) :
    List WalkEntry → WalkOut
  | [] => { tasks := [], results := [], errDelta := 0, foundDelta := 0, ret := none }
  | .fail p :: rest =>
    if o.failFast then
      { tasks := [], results := [errorResult p "" "walk"], errDelta := 1,
        foundDelta := 0, ret := some .walkFailFast }
    else
      let r := walkRoot o archEntries rest
      { r with results := errorResult p "" "walk" :: r.results,
               errDelta := r.errDelta + 1 }
  | .ent path name isDir :: rest =>
    if isDir then walkRoot o archEntries rest
    else if !o.allowedExt (lowerStr (extOf name)) then walkRoot o archEntries rest
    else if o.archives && isArchiveB path then
      let a := walkArchiveM o path (archEntries path)
      let r := walkRoot o archEntries rest
      { r with tasks := a.1 ++ r.tasks,
               foundDelta := 2 * a.1.length + r.foundDelta }
    else
      let r := walkRoot o archEntries rest
      { r with tasks := ⟨path, "", false⟩ :: r.tasks,
               foundDelta := r.foundDelta + 1 }

/-- The walker goroutine (`stats.go:204-248`): it walks every root in
order - the value `WalkWithDepth` returns for a root is ignored, the
loop simply moves on to the next root - and when the loop ends it only
closes the `walkErr` channel.  No value is ever sent on `walkErr`. -/
def walkerGoroutine (o : ScanOpts) (archEntries : String → List ArchEntry)
    (roots : List (List WalkEntry)) : WalkOut :=
  roots.foldr (fun root acc => (walkRoot o archEntries root).append acc)
    { tasks := [], results := [], errDelta := 0, foundDelta := 0, ret := none }

/-- What the controller receives from `walkErr` (`stats.go:275`): the
values sent on the channel in order, then the zero value `nil` once the
channel is closed.  The goroutine never sends, so the receive always
yields `none`. -/
def recvWalkErr (sent : List ScanErr) : Option ScanErr :=
  sent.head?

/-- `scanRegularFile` (`stats.go:294-314`): an archive-extension path is
dropped without opening the file; otherwise the file is opened and
streamed through `matchReader` with the scan options. -/
def scanRegularFileM (o : ScanOpts) (ps : List Pattern) (hasIns : Bool)
    (contents : String → String → List String) (path : String) : RunResult :=
  if isArchiveB path then
    { results := [], matchDelta := 0, errDelta := 0, saved := none, tmpRemains := false }
  else
    matchReaderM ps hasIns o.saveFull o.saveFullFolder path ""
      (contents path "")

/-- `scanArchiveFile` (`stats.go:316-342`): the archive entry is opened
(successfully, in this failure-free model) and streamed through
`matchReader`. -/
def scanArchiveFileM (o : ScanOpts) (ps : List Pattern) (hasIns : Bool)
    (contents : String → String → List String)
    (path innerPath : String) : RunResult :=
  matchReaderM ps hasIns o.saveFull o.saveFullFolder path innerPath
    (contents path innerPath)

/-- The worker body (`stats.go:184-196`): bump `processed`, then scan the
task as an archive entry or a regular file. -/
def workerRun (o : ScanOpts) (ps : List Pattern) (hasIns : Bool)
    (contents : String → String → List String) (t : Task) : RunResult :=
  if t.isArchive then scanArchiveFileM o ps hasIns contents t.path t.innerPath
  else scanRegularFileM o ps hasIns contents t.path

/-- The full outcome of one `Scan` call. -/
structure ScanOut where
  ret : Option ScanErr
  found : Nat
  processed : Nat
  matchesC : Nat
  errorsC : Nat
  results : List MatchResult
deriving DecidableEq, Repr

/-- `Scan` (`stats.go:168-292`) with a healthy pool and no cancellation:
the walker goroutine produces all tasks and walk-error results; the
controller loop dispatches every task to a worker; the `walkErr` receive
yields `none` because the goroutine closes the channel without sending
(`stats.go:204-209,275`), so the `ErrWalkFailFast` branch at
`stats.go:280` never fires and the function falls through to `return
nil`. -/
def scanModel (o : ScanOpts) (ps : List Pattern) (hasIns : Bool)
    (roots : List (List WalkEntry))
    (contents : String → String → List String)
    (archEntries : String → List ArchEntry) : ScanOut :=
  let w := walkerGoroutine o archEntries roots
  let runs := w.tasks.map (workerRun o ps hasIns contents)
  { ret := (match recvWalkErr [] with
            | some e => some e
            | none => none),
    found := w.foundDelta,
    processed := w.tasks.length,
    matchesC := (runs.map RunResult.matchDelta).sum,
    errorsC := w.errDelta + (runs.map RunResult.errDelta).sum,
    results := w.results ++ (runs.map RunResult.results).flatten }

/-- The match-count contribution of one task, as accumulated into the
shared atomic counter by a worker. -/
def workerMatches (o : ScanOpts) (ps : List Pattern) (hasIns : Bool)
    (contents : String → String → List String) (t : Task) : Nat :=
  (workerRun o ps hasIns contents t).matchDelta

/-- The total of the atomic match counter after the workers have drained
a task list, processing the tasks in the list order. -/
def totalMatches (o : ScanOpts) (ps : List Pattern) (hasIns : Bool)
    (contents : String → String → List String) (tasks : List Task) : Nat :=
  (tasks.map (workerMatches o ps hasIns contents)).sum

/-! ## Claim C1: line-mode reporting -/

/-- C1: in line mode (saveFull = false) every matching line is claimed to
produce one callback invocation carrying the line number and text.  The
code disagrees: the run below has one matching line, the match counter
reaches 1, yet the callback receives nothing - `matchReader` only
invokes `onMatch` in the save-full branch and on read errors
(`reader.go:76-99,109-115`), so line-mode matches are counted but never
reported. -/
theorem C1_line_mode_emits_nothing :
    lineHit [Pattern.plain "hello" false] false "hello\n" = true ∧
    matchReaderM [Pattern.plain "hello" false] false false "" "/f.txt" ""
        ["hello\n", "world\n"] =
      { results := [], matchDelta := 1, errDelta := 0,
        saved := none, tmpRemains := false } := by
  constructor
  · rfl
  · rfl

/-! ## Claim C2: fail-fast sentinel propagation -/

/-- C2: a corpus whose single root yields one traversal error.  Under
fail-fast the walker callback does return the sentinel to
`WalkWithDepth` (second conjunct), but the walker goroutine discards
that value and only closes `walkErr` (`stats.go:204-248`), so the
controller receive yields `nil` and `Scan` falls through to `return
nil`: the first conjunct shows the whole scan outcome, with `ret =
none` instead of the claimed `ErrWalkFailFast`.  The third conjunct
shows that without fail-fast the same corpus also returns `nil` with
the error counter at 1, the half of the claim the code does satisfy. -/
theorem C2_fail_fast_sentinel_lost :
    scanModel { failFast := true } [] false [[WalkEntry.fail "/r/secret"]]
        (fun _ _ => []) (fun _ => []) =
      { ret := none, found := 0, processed := 0, matchesC := 0, errorsC := 1,
        results := [errorResult "/r/secret" "" "walk"] } ∧
    (walkRoot { failFast := true } (fun _ => []) [WalkEntry.fail "/r/secret"]).ret =
      some ScanErr.walkFailFast ∧
    scanModel { failFast := false } [] false [[WalkEntry.fail "/r/secret"]]
        (fun _ _ => []) (fun _ => []) =
      { ret := none, found := 0, processed := 0, matchesC := 0, errorsC := 1,
        results := [errorResult "/r/secret" "" "walk"] } := by
  refine ⟨rfl, rfl, rfl⟩

/-! ## Claim C8: the plain prefix is not stripped -/

/-- C8: a pattern line `plain:password` is claimed to produce a pattern
for the text `password` with the prefix stripped.  `LoadPatterns` has no
case for a bare `plain:` prefix (`matcher.go:64-76`): the line falls to
the default branch and the whole text `plain:password` becomes the
substring, so the produced pattern does not match a line containing
`password`. -/
theorem C8_plain_prefix_not_stripped :
    loadPatterns (fun _ => none) ["plain:password"] =
      .ok ([Pattern.plain "plain:password" false], false) ∧
    Pattern.matchB (Pattern.plain "plain:password" false) "my password is 123\n" = false ∧
    strContains "my password is 123\n" "password" = true := by
  refine ⟨rfl, rfl, rfl⟩

/-! ## Claim C4: case-sensitive matching under hasInsensitive -/

/-- C4 counterexample: a pattern file with the case-sensitive pattern
`FOO` and one case-insensitive pattern (so `hasInsensitive` is true).
The scanned line `FOO` contains the literal substring `FOO`, yet the
scanner registers no match: with `hasInsensitive` set, `matchReader`
lowers the line once and tests every pattern - case-sensitive ones
included - against the lowered copy (`reader.go:61-72`), and `foo` does
not contain `FOO`.  The claim says the case-sensitive pattern must match
regardless of `hasInsensitive`. -/
theorem C4_cex_sensitive_tested_on_lowered_line :
    loadPatterns (fun _ => none) ["FOO", "plain:i:zzz"] =
      .ok ([Pattern.plain "FOO" false, Pattern.plain "zzz" true], true) ∧
    strContains "FOO\n" "FOO" = true ∧
    (matchReaderM [Pattern.plain "FOO" false, Pattern.plain "zzz" true]
        true false "" "/f.txt" "" ["FOO\n"]).matchDelta = 0 := by
  refine ⟨rfl, rfl, rfl⟩

/-- Helper for C4: in line mode the match counter counts exactly the
chunks on which the single sensitive pattern fires against the line the
scanner actually tests (the lowered line when `hasInsensitive` is set,
the original otherwise), independent of the temp-file state and of the
found flag. -/
theorem mrRun_line_mode_count (s fp ip full : String) (hasIns : Bool)
    (content : List String) (tmp : TmpSt) (found : Bool) :
    (mrRun [Pattern.plain s false] hasIns false "" fp ip full content tmp found).matchDelta =
      (content.filter (fun l => strContains (lineForCheck hasIns l) s)).length := by
  induction content generalizing found with
  | nil => rfl
  | cons l rest ih =>
    by_cases hl : strContains (lineForCheck hasIns l) s
    · simp [mrRun, List.find?, Pattern.matchB, hl, List.filter_cons, ih]
    · simp [mrRun, List.find?, Pattern.matchB, hl, List.filter_cons, ih]

/-- C4 amended: a case-sensitive plain pattern is tested against the
original line only when `hasInsensitive` is false; when the pattern list
contains a case-insensitive pattern, every line is lowered first and the
case-sensitive pattern too is tested against the lowered line.  The
line-mode match counter for a single sensitive pattern counts exactly
the lines whose `lineForCheck` image contains the literal substring. -/
theorem C4_amended_sensitive_matches_checked_line (s fp ip : String) (hasIns : Bool)
    (content : List String) :
    (matchReaderM [Pattern.plain s false] hasIns false "" fp ip content).matchDelta =
      (content.filter (fun l => strContains (lineForCheck hasIns l) s)).length := by
  simpa [matchReaderM] using
    mrRun_line_mode_count s fp ip (joinStr content) hasIns content TmpSt.noTmp false

/-! ## Claim C6: pattern-file compilation -/

/-- A line that starts with `re:` does not start with `plain:i:`. -/
theorem re_not_plain_i (l : String) (h : hasPrefixS l "re:" = true) :
    hasPrefixS l "plain:i:" = false := by
  unfold hasPrefixS at h ⊢
  cases hd : l.data with
  | nil => rw [hd] at h; exact absurd h (by decide)
  | cons c cs =>
    rw [hd] at h
    simp only [show ("re:").data = ['r', 'e', ':'] from rfl, List.isPrefixOf,
      Bool.and_eq_true, beq_iff_eq] at h
    obtain ⟨hc, -⟩ := h
    subst hc
    simp [show ("plain:i:").data = ['p', 'l', 'a', 'i', 'n', ':', 'i', ':'] from rfl,
      List.isPrefixOf]

/-- C6: for a pattern file all of whose `re:` lines compile, the load
returns exactly one pattern per kept (non-blank, non-comment) line in
file order, classified by prefix, and the `hasInsensitive` flag is true
exactly when some kept line carries the `plain:i:` prefix. -/
theorem C6_load_patterns_per_line (compile : String → Option AbsRegex)
    (lines : List String)
    (h : ∀ l ∈ keptLines lines, validLine compile l) :
    loadPatterns compile lines =
      .ok ((keptLines lines).filterMap (classifyLine compile),
           (keptLines lines).any (fun l => hasPrefixS l "plain:i:")) := by
  induction lines with
  | nil => rfl
  | cons l ls ih =>
    by_cases hk : keepLine (trimS l)
    · have hkept : keptLines (l :: ls) = trimS l :: keptLines ls := by
        simp [keptLines, List.filter_cons, hk]
      have hmem : trimS l ∈ keptLines (l :: ls) := by
        rw [hkept]; exact List.mem_cons_self _ _
      have ih2 := ih (fun x hx => h x (by rw [hkept]; exact List.mem_cons_of_mem _ hx))
      by_cases hre : hasPrefixS (trimS l) "re:"
      · have hv := h _ hmem hre
        obtain ⟨re, hre2⟩ := Option.isSome_iff_exists.mp hv
        simp [loadPatterns, hk, hre, hre2, ih2, hkept, classifyLine,
          re_not_plain_i _ hre, List.filterMap_cons, Except.map]
      · by_cases hpi : hasPrefixS (trimS l) "plain:i:"
        · simp [loadPatterns, hk, hre, hpi, ih2, hkept, classifyLine,
            List.filterMap_cons, Except.map]
        · simp [loadPatterns, hk, hre, hpi, ih2, hkept, classifyLine,
            List.filterMap_cons, Except.map]
    · have hkept : keptLines (l :: ls) = keptLines ls := by
        simp [keptLines, List.filter_cons, hk]
      have ih2 := ih (fun x hx => h x (by rw [hkept]; exact hx))
      simp [loadPatterns, hk, ih2, hkept]

/-- C6 witness: a concrete five-line pattern file exercising comments,
blanks, all three pattern forms and the insensitive flag, loaded with a
compiler oracle that accepts everything. -/
theorem C6_load_patterns_per_line_witness :
    (∀ l ∈ keptLines ["# note", "", "plain:i:AbC", "foo", "re:x+"],
        validLine (fun s => some ⟨fun t => strContains t s, s⟩) l) ∧
    loadPatterns (fun s => some ⟨fun t => strContains t s, s⟩)
        ["# note", "", "plain:i:AbC", "foo", "re:x+"] =
      .ok ((keptLines ["# note", "", "plain:i:AbC", "foo", "re:x+"]).filterMap
            (classifyLine (fun s => some ⟨fun t => strContains t s, s⟩)),
           (keptLines ["# note", "", "plain:i:AbC", "foo", "re:x+"]).any
            (fun l => hasPrefixS l "plain:i:")) :=
  ⟨fun _ _ => fun _ => rfl,
   C6_load_patterns_per_line _ _ (fun _ _ => fun _ => rfl)⟩

/-! ## Claim C7: archive entry ceiling -/

/-- Helper for C7: starting from any entry count not above the ceiling,
the counting loop emits tasks for exactly the first
`maxArchiveFiles - count` admitted entries, in order. -/
theorem walkArchiveGo_take (o : ScanOpts) (path : String)
    (entries : List ArchEntry) (count : Nat) (h : count ≤ maxArchiveFiles) :
    (walkArchiveGo o path entries count).1 =
      ((entries.filter (archAllowed o)).take (maxArchiveFiles - count)).map
        (fun e => ⟨path, e.inner, true⟩) := by
  induction entries generalizing count with
  | nil => simp [walkArchiveGo]
  | cons e rest ih =>
    by_cases hskip : (e.hasErr || e.isDir) = true
    · have hall : archAllowed o e = false := by
        rcases Bool.or_eq_true_iff.mp hskip with h1 | h1 <;> simp [archAllowed, h1]
      simp [walkArchiveGo, hskip, List.filter_cons, hall, ih count h]
    · have he : e.hasErr = false ∧ e.isDir = false := by
        have := hskip; simp only [Bool.or_eq_true_iff, not_or, Bool.not_eq_true] at this
        exact this
      by_cases hcap : maxArchiveFiles ≤ count
      · have hc0 : count = maxArchiveFiles := Nat.le_antisymm h hcap
        simp [walkArchiveGo, hskip, hc0]
      · by_cases hext : o.allowedExt (lowerStr (extOf e.inner)) = true
        · have hall : archAllowed o e = true := by
            simp [archAllowed, he.1, he.2, hext]
          have hstep : maxArchiveFiles - count = (maxArchiveFiles - (count + 1)) + 1 := by
            omega
          simp only [walkArchiveGo, hskip, Bool.false_eq_true, if_false, hcap,
            decide_eq_true_eq, if_neg hcap, hext, Bool.not_true, if_neg,
            List.filter_cons, hall, if_pos, hstep, List.take_succ_cons, List.map_cons]
          rw [ih (count + 1) (by omega)]
        · have hall : archAllowed o e = false := by
            simp [archAllowed, hext]
          have hx : o.allowedExt (lowerStr (extOf e.inner)) = false := by
            simpa using hext
          simp [walkArchiveGo, hskip, hcap, hx, List.filter_cons, hall, ih count h]

/-- C7: the archive walk emits tasks for exactly the first 10,000
admitted entries of the archive, in order; in particular an archive with
more entries yields at most `maxArchiveFiles` tasks, the tasks already
emitted are kept, and the model returns only the task list and the
warning flag - its type has no error component, matching the Go
function, which returns nothing and throws the internal limit error
away (`fs.go:89`). -/
theorem C7_archive_ceiling (o : ScanOpts) (path : String)
    (entries : List ArchEntry) :
    (walkArchiveM o path entries).1 =
      ((entries.filter (archAllowed o)).take maxArchiveFiles).map
        (fun e => ⟨path, e.inner, true⟩) ∧
    (walkArchiveM o path entries).1.length ≤ maxArchiveFiles := by
  have h := walkArchiveGo_take o path entries 0 (Nat.zero_le _)
  simp only [Nat.sub_zero] at h
  simp only [walkArchiveM]
  refine ⟨h, ?_⟩
  rw [h, List.length_map]
  exact List.length_take_le _ _

/-! ## Claim C5: depth computation and pruning -/

/-- Induction principle for `FTree`: a property closed under forming a
node from children that satisfy it holds everywhere. -/
theorem ftreeInd (P : FTree → Prop)
    (h : ∀ n cs, (∀ c ∈ cs, P c) → P (FTree.node n cs)) : ∀ t, P t
  | .node n cs => h n cs (fun c hc => ftreeInd P h c)
termination_by t => sizeOf t
decreasing_by
  have := List.sizeOf_lt_of_mem hc
  simp only [FTree.node.sizeOf_spec]
  omega

/-- Boolean pruning test unfolded to its propositional content. -/
theorem prunedB_iff (md : Nat) (r : String) :
    prunedB md r = true ↔ 0 < md ∧ r ≠ "." ∧ md < depthCount r := by
  simp [prunedB, and_assoc]

/-- Separator count of a slash-joined relative path. -/
theorem countSep_join (r n : String) :
    countSep (r ++ "/" ++ n) = countSep r + 1 + countSep n := by
  simp only [countSep, String.data_append, List.filter_append, List.length_append]
  norm_num [show (("/").data) = ['/'] from rfl, List.filter]

/-- The pruning test propagates from a directory to everything below it:
a child relative path of a pruned relative path is itself pruned. -/
theorem prunedB_childRel (md : Nat) (r n : String) (h : prunedB md r = true) :
    prunedB md (childRel r n) = true := by
  obtain ⟨hmd, hdot, hdepth⟩ := (prunedB_iff md r).mp h
  have hne : r.data ≠ [] := by
    intro h0
    have : depthCount r = 0 := by simp [depthCount, h0]
    omega
  have hc : childRel r n = r ++ "/" ++ n := by simp [childRel, hdot]
  have hdata : (r ++ "/" ++ n).data ≠ [] := by
    simp only [String.data_append]
    intro hx
    exact hne (List.append_eq_nil.mp (List.append_eq_nil.mp hx).1).1
  have hcount : countSep r + 1 + countSep n = countSep (r ++ "/" ++ n) :=
    (countSep_join r n).symm
  rw [hc]
  refine (prunedB_iff md _).mpr ⟨hmd, ?_, ?_⟩
  · intro hx
    have : countSep (r ++ "/" ++ n) = countSep "." := by rw [hx]
    rw [← hcount] at this
    simp [countSep, show ((".").data) = ['.'] from rfl, List.filter] at this
  · have hdc : depthCount (r ++ "/" ++ n) = countSep r + 1 + countSep n + 1 := by
      simp [depthCount, hdata, hcount]
    have hdr : depthCount r ≤ countSep r + 1 := by
      by_cases h0 : r.data = []
      · simp [depthCount, h0]
      · simp [depthCount, h0]
    omega

/-- Membership in the child paths comes from one child subtree. -/
theorem pathsChildren_mem (r x : String) (cs : List FTree)
    (h : x ∈ pathsChildren r cs) :
    ∃ c ∈ cs, x ∈ pathsT (childRel r c.name) c := by
  induction cs with
  | nil => simp [pathsChildren] at h
  | cons c cs ih =>
    rw [pathsChildren, List.mem_append] at h
    rcases h with h | h
    · exact ⟨c, List.mem_cons_self _ _, h⟩
    · obtain ⟨d, hd, hx⟩ := ih h
      exact ⟨d, List.mem_cons_of_mem _ hd, hx⟩

/-- Below a pruned relative path, every relative path of the subtree is
itself pruned. -/
theorem pathsT_all_pruned (md : Nat) :
    ∀ t : FTree, ∀ r : String, prunedB md r = true →
      ∀ x ∈ pathsT r t, prunedB md x = true := by
  refine ftreeInd _ ?_
  intro n cs ih r hr x hx
  rw [pathsT, List.mem_cons] at hx
  rcases hx with rfl | hx
  · exact hr
  · obtain ⟨c, hc, hxc⟩ := pathsChildren_mem r x cs hx
    exact ih c hc (childRel r c.name) (prunedB_childRel md r c.name hr) x hxc

/-- The visit list of the depth-bounded walk is the unpruned sublist of
all relative paths: pruning a directory removes exactly its whole
subtree, every surviving entry having an unpruned relative path. -/
theorem visitT_filter (md : Nat) :
    ∀ t : FTree, ∀ r : String,
      visitT md r t = (pathsT r t).filter (fun x => !prunedB md x) := by
  refine ftreeInd _ ?_
  intro n cs ih r
  by_cases hr : prunedB md r = true
  · rw [visitT, if_pos hr, pathsT, List.filter_cons_of_neg (by simp [hr])]
    have hall := pathsT_all_pruned md (FTree.node n cs) r hr
    rw [pathsT] at hall
    rw [List.filter_eq_nil_iff.mpr]
    intro x hx
    simp [hall x (List.mem_cons_of_mem _ hx)]
  · rw [visitT, if_neg hr, pathsT,
      List.filter_cons_of_pos (by simp [hr])]
    congr 1
    induction cs with
    | nil => rfl
    | cons c cs ihcs =>
      rw [visitChildren, pathsChildren, List.filter_append]
      rw [ih c (List.mem_cons_self _ _) (childRel r c.name)]
      rw [ihcs (fun d hd => ih d (List.mem_cons_of_mem _ hd))]

/-- C5 counterexample: in the tree `root/a/b`, the entry `a/b` has
exactly one separator in its relative path, so under the claim's depth
formula (count of separators) its depth is 1 and with `maxDepth = 1` it
should be visited; the walk prunes it, because `depthCount`
(`fs.go:111-116`) is the separator count plus one. -/
theorem C5_cex_separator_count_is_off_by_one :
    countSep "a/b" = 1 ∧
    "a/b" ∈ pathsT "." (FTree.node "r" [FTree.node "a" [FTree.node "b" []]]) ∧
    "a/b" ∉ visitT 1 "." (FTree.node "r" [FTree.node "a" [FTree.node "b" []]]) := by
  refine ⟨by decide, by decide, by decide⟩

/-- C5 amended: the walker computes an entry's depth as the number of
components of its relative path - the separator count plus one
(`depthCount`) - with the root (relative path `.`) exempt from the
test; a subtree is pruned exactly when `maxDepth` is positive and this
depth exceeds it, so the visited entries are exactly those whose
relative path passes the test, and with `maxDepth = 0` every entry is
visited. -/
theorem C5_amended_depth_is_component_count (md : Nat) (t : FTree) :
    visitT md "." t = (pathsT "." t).filter (fun r => !prunedB md r) ∧
    visitT 0 "." t = pathsT "." t := by
  refine ⟨visitT_filter md t ".", ?_⟩
  rw [visitT_filter 0 t "."]
  apply List.filter_eq_self.mpr
  intro a _
  simp [prunedB]

/-! ## Claim C3: save-full mode on a single-match file -/

/-- Chunk concatenation distributes over list append. -/
theorem catStr_append (a b : List String) :
    catStr (a ++ b) = catStr a ++ catStr b := by
  induction a with
  | nil => rw [List.nil_append, catStr, String.empty_append]
  | cons s rest ih =>
    rw [List.cons_append, catStr, catStr, ih, String.append_assoc]

/-- Helper for C3: lines on which no pattern fires pass through the
per-line loop without any effect. -/
theorem scanLines_no_hit (ps : List Pattern) (hasIns saveFull : Bool)
    (folder fp ip consumed : String) (lines : List String) (tmp : TmpSt) (found : Bool)
    (h : ∀ l ∈ lines, lineHit ps hasIns l = false) :
    scanLines ps hasIns saveFull folder fp ip consumed lines tmp found =
      { results := [], matchDelta := 0, errDelta := 0, saved := none,
        earlyStop := false, tmp := tmp, found := found } := by
  induction lines with
  | nil => rfl
  | cons l rest ih =>
    cases hf : ps.find? (fun p => p.matchB (lineForCheck hasIns l)) with
    | none =>
      rw [scanLines, hf]
      exact ih (fun x hx => h x (List.mem_cons_of_mem _ hx))
    | some p =>
      exfalso
      have := h l (List.mem_cons_self _ _)
      rw [lineHit, hf] at this
      simp at this

/-- Helper for C3: a block with exactly one firing line, scanned with
the temp file active, renames the fetched prefix into place, emits the
one matched result for the first firing pattern, and hands the renamed
state on. -/
theorem scanLines_unique_hit (ps : List Pattern) (hasIns : Bool)
    (folder fp ip consumed : String) (lines : List String) (found : Bool)
    (h : (lines.filter (lineHit ps hasIns)).length = 1) :
    ∃ p ∈ ps, scanLines ps hasIns true folder fp ip consumed lines TmpSt.active found =
      { results := [matchedResult fp ip p], matchDelta := 1, errDelta := 0,
        saved := some (finalSavePath folder fp ip, consumed),
        earlyStop := false, tmp := TmpSt.renamed, found := true } := by
  induction lines generalizing found with
  | nil => simp at h
  | cons l rest ih =>
    cases hf : ps.find? (fun p => p.matchB (lineForCheck hasIns l)) with
    | none =>
      have hl : lineHit ps hasIns l = false := by rw [lineHit, hf]; rfl
      rw [List.filter_cons_of_neg (by simp [hl])] at h
      obtain ⟨p, hp, heq⟩ := ih found h
      refine ⟨p, hp, ?_⟩
      rw [scanLines, hf]
      exact heq
    | some p =>
      have hl : lineHit ps hasIns l = true := by rw [lineHit, hf]; rfl
      rw [List.filter_cons_of_pos (by simp [hl]), List.length_cons] at h
      have hrest : ∀ x ∈ rest, lineHit ps hasIns x = false := by
        have h0 : (rest.filter (lineHit ps hasIns)) = [] :=
          List.length_eq_zero.mp (by omega)
        intro x hx
        have := List.filter_eq_nil_iff.mp h0 x hx
        simpa using this
      refine ⟨p, List.mem_of_find?_eq_some hf, ?_⟩
      rw [scanLines, hf]
      simp only [if_pos rfl]
      rw [scanLines_no_hit ps hasIns true folder fp ip consumed rest
        TmpSt.renamed true hrest]
      rfl

/-- Helper for C3: once the temp file has been renamed (and so closed),
the rest of the stream produces exactly one write-error result when any
fill remains to be fetched, and a clean end otherwise; no temp file is
left in either case. -/
theorem scanFills_renamed (ps : List Pattern) (hasIns : Bool)
    (folder fp ip consumed : String) (fills : List (List String)) (found : Bool) :
    scanFills ps hasIns true folder fp ip consumed fills TmpSt.renamed found =
      if fills.isEmpty then
        { results := [], matchDelta := 0, errDelta := 0, saved := none,
          tmpRemains := false }
      else
        { results := [errorResult fp ip "write"], matchDelta := 0, errDelta := 1,
          saved := none, tmpRemains := false } := by
  cases fills with
  | nil => rfl
  | cons fill rest => rfl

/-- Helper for C3: the fetch loop over fills with no firing line, then a
fill with exactly one firing line, then arbitrary further fills: the
temp file is renamed holding exactly the bytes fetched up to and
including the hit fill, one matched result is emitted, followed by one
write-error result exactly when fills remain after the hit fill. -/
theorem scanFills_located (ps : List Pattern) (hasIns : Bool)
    (folder fp ip : String) (pre : List (List String)) (hitFill : List String)
    (post : List (List String)) (consumed : String)
    (hpre : ∀ fill ∈ pre, ∀ l ∈ fill, lineHit ps hasIns l = false)
    (hhit : (hitFill.filter (lineHit ps hasIns)).length = 1) :
    ∃ p ∈ ps,
      scanFills ps hasIns true folder fp ip consumed (pre ++ hitFill :: post)
          TmpSt.active false =
        { results := matchedResult fp ip p ::
            (if post.isEmpty then [] else [errorResult fp ip "write"]),
          matchDelta := 1,
          errDelta := if post.isEmpty then 0 else 1,
          saved := some (finalSavePath folder fp ip,
                         consumed ++ catStr ((pre ++ [hitFill]).flatten)),
          tmpRemains := false } := by
  induction pre generalizing consumed with
  | nil =>
    obtain ⟨p, hp, heq⟩ :=
      scanLines_unique_hit ps hasIns folder fp ip (consumed ++ catStr hitFill)
        hitFill false hhit
    refine ⟨p, hp, ?_⟩
    rw [List.nil_append, scanFills, if_neg (by decide)]
    simp only [heq, scanFills_renamed]
    cases post with
    | nil =>
      simp [catStr_append, catStr, String.append_empty, List.flatten_cons]
    | cons q qs =>
      simp [catStr_append, catStr, String.append_empty, List.flatten_cons]
  | cons fill pre2 ih =>
    have hfill : ∀ l ∈ fill, lineHit ps hasIns l = false :=
      hpre fill (List.mem_cons_self _ _)
    obtain ⟨p, hp, heq⟩ :=
      ih (consumed ++ catStr fill)
        (fun f hf => hpre f (List.mem_cons_of_mem _ hf))
    refine ⟨p, hp, ?_⟩
    rw [List.cons_append, scanFills, if_neg (by decide)]
    simp only [scanLines_no_hit ps hasIns true folder fp ip (consumed ++ catStr fill)
      fill TmpSt.active false hfill, heq]
    simp [catStr_append, String.append_assoc, List.flatten_cons]

/-- C3 counterexample: the source stream `foo\ntail\n` arrives in two
buffer fills and its single matching line sits in the first.  The rename
fires while the temp file holds only the first fill, so the saved file
contains `foo\n` - not the source bytes - and the next fetch writes
through the tee into the closed temp file, emitting a second, error
`MatchResult`.  The claim promises a byte-identical destination file and
exactly one `MatchResult` for every such source file. -/
theorem C3_cex_tee_truncates_beyond_first_fill :
    ((([["foo\n"], ["tail\n"]] : List (List String)).flatten.filter
        (lineHit [Pattern.plain "foo" false] false)).length = 1) ∧
    matchReaderBufM [Pattern.plain "foo" false] false true "out" "/big.txt" ""
        [["foo\n"], ["tail\n"]] =
      { results := [matchedResult "/big.txt" "" (Pattern.plain "foo" false),
                    errorResult "/big.txt" "" "write"],
        matchDelta := 1, errDelta := 1,
        saved := some (finalSavePath "out" "/big.txt" "", "foo\n"),
        tmpRemains := false } ∧
    catStr ([["foo\n"], ["tail\n"]] : List (List String)).flatten = "foo\ntail\n" ∧
    ("foo\n" : String) ≠ "foo\ntail\n" := by
  refine ⟨by decide, by decide, by decide, by decide⟩

/-- C3 amended: for a source stream with exactly one firing line and a
non-empty destination folder, save-full mode renames exactly one file
into place at `finalSavePath`, whose content is the prefix of the
source that the buffered reader had fetched - and the tee therefore
written - when the match fired: the whole source exactly when the match
lies in the final buffer fill, hence for every file read within one
fill.  No temporary file is left behind, and the callback receives the
one matched result (no line text, the firing pattern's description),
followed by one error result exactly when fills remain beyond the
match's fill, where the tee's write to the closed temp file fails. -/
theorem C3_amended_save_full_buffered (ps : List Pattern) (hasIns : Bool)
    (folder fp ip : String) (pre : List (List String)) (hitFill : List String)
    (post : List (List String))
    (hfold : folder.data ≠ [])
    (hpre : ∀ fill ∈ pre, ∀ l ∈ fill, lineHit ps hasIns l = false)
    (hhit : (hitFill.filter (lineHit ps hasIns)).length = 1)
    (hpost : ∀ fill ∈ post, ∀ l ∈ fill, lineHit ps hasIns l = false) :
    ∃ p ∈ ps,
      matchReaderBufM ps hasIns true folder fp ip (pre ++ hitFill :: post) =
        { results := matchedResult fp ip p ::
            (if post.isEmpty then [] else [errorResult fp ip "write"]),
          matchDelta := 1,
          errDelta := if post.isEmpty then 0 else 1,
          saved := some (finalSavePath folder fp ip,
                         catStr ((pre ++ [hitFill]).flatten)),
          tmpRemains := false } := by
  obtain ⟨p, hp, heq⟩ := scanFills_located ps hasIns folder fp ip pre hitFill post
    "" hpre hhit
  refine ⟨p, hp, ?_⟩
  rw [matchReaderBufM]
  simp only [Bool.true_and, hfold, decide_eq_true_eq]
  rw [String.empty_append] at heq
  convert heq using 2

/-- C3 witness: a stream of three one-line fills whose middle line alone
fires the pattern; the saved content is the first two fills and the
trailing fill triggers the write-error result. -/
theorem C3_amended_save_full_buffered_witness :
    ((("out" : String).data ≠ []) ∧
      (∀ fill ∈ ([["foo\n"]] : List (List String)), ∀ l ∈ fill,
        lineHit [Pattern.plain "bar" false] false l = false) ∧
      ((["bar\n"].filter (lineHit [Pattern.plain "bar" false] false)).length = 1) ∧
      (∀ fill ∈ ([["baz\n"]] : List (List String)), ∀ l ∈ fill,
        lineHit [Pattern.plain "bar" false] false l = false)) ∧
    (∃ p ∈ [Pattern.plain "bar" false],
      matchReaderBufM [Pattern.plain "bar" false] false true "out" "/tmp/file.txt" ""
          ([["foo\n"]] ++ ["bar\n"] :: [["baz\n"]]) =
        { results := matchedResult "/tmp/file.txt" "" p ::
            (if ([["baz\n"]] : List (List String)).isEmpty then []
             else [errorResult "/tmp/file.txt" "" "write"]),
          matchDelta := 1,
          errDelta := if ([["baz\n"]] : List (List String)).isEmpty then 0 else 1,
          saved := some (finalSavePath "out" "/tmp/file.txt" "",
                         catStr (([["foo\n"]] ++ [["bar\n"]]).flatten)),
          tmpRemains := false }) :=
  ⟨⟨by decide, by decide, by decide, by decide⟩,
   C3_amended_save_full_buffered [Pattern.plain "bar" false] false "out"
     "/tmp/file.txt" "" [["foo\n"]] ["bar\n"] [["baz\n"]]
     (by decide) (by decide) (by decide) (by decide)⟩

/-! ## Claim C9: match count independent of scheduling order -/

/-- C9: each task is processed exactly once by some worker, its match
contribution computed from the task alone and accumulated into the
shared counter by atomic addition; hence any reordering of the task
stream - in particular any interleaving produced by N worker threads -
yields the same total match count as the 1-worker in-order run. -/
theorem C9_match_count_order_invariant (o : ScanOpts) (ps : List Pattern)
    (hasIns : Bool) (contents : String → String → List String)
    (ts ts' : List Task) (h : ts.Perm ts') :
    totalMatches o ps hasIns contents ts = totalMatches o ps hasIns contents ts' :=
  (h.map (workerMatches o ps hasIns contents)).sum_eq

/-- C9 witness: two concrete single-line files, processed in the two
possible orders, with a pattern matching one of them. -/
theorem C9_match_count_order_invariant_witness :
    (List.Perm [Task.mk "/a.txt" "" false, Task.mk "/b.txt" "" false]
               [Task.mk "/b.txt" "" false, Task.mk "/a.txt" "" false]) ∧
    totalMatches {} [Pattern.plain "foo" false] false
        (fun p _ => if p = "/a.txt" then ["foo\n"] else ["bar\n"])
        [Task.mk "/a.txt" "" false, Task.mk "/b.txt" "" false] =
      totalMatches {} [Pattern.plain "foo" false] false
        (fun p _ => if p = "/a.txt" then ["foo\n"] else ["bar\n"])
        [Task.mk "/b.txt" "" false, Task.mk "/a.txt" "" false] :=
  ⟨by decide,
   C9_match_count_order_invariant {} [Pattern.plain "foo" false] false
     (fun p _ => if p = "/a.txt" then ["foo\n"] else ["bar\n"])
     _ _ (by decide)⟩

/-! ## Claim C10: archive-extension files with archive scanning disabled -/

/-- C10: with `Archives = false`, a file whose extension marks it as an
archive and which passes the extension filter is still enqueued (found
counter 1) and processed (processed counter 1), but the worker's
`scanRegularFile` returns before opening it (`stats.go:302-304`), so no
result of any kind is emitted and the match and error counters stay at
zero - whatever the file content would have been. -/
theorem C10_archives_disabled_counts_but_silent (o : ScanOpts) (ps : List Pattern)
    (hasIns : Bool) (contents : String → String → List String)
    (archEntries : String → List ArchEntry) (path name : String)
    (ha : isArchiveB path = true)
    (he : o.allowedExt (lowerStr (extOf name)) = true)
    (hn : o.archives = false) :
    scanModel o ps hasIns [[WalkEntry.ent path name false]] contents archEntries =
      { ret := none, found := 1, processed := 1, matchesC := 0, errorsC := 0,
        results := [] } := by
  simp [scanModel, walkerGoroutine, walkRoot, WalkOut.append, he, hn,
    workerRun, scanRegularFileM, ha, recvWalkErr]

/-- C10 witness: a zip file containing a line that would match the
pattern; the scan still reports nothing for it. -/
theorem C10_archives_disabled_counts_but_silent_witness :
    (isArchiveB "/r/a.zip" = true ∧
      ScanOpts.allowedExt {} (lowerStr (extOf "a.zip")) = true ∧
      ({} : ScanOpts).archives = false) ∧
    scanModel {} [Pattern.plain "match" false] false
        [[WalkEntry.ent "/r/a.zip" "a.zip" false]]
        (fun _ _ => ["match\n"]) (fun _ => []) =
      { ret := none, found := 1, processed := 1, matchesC := 0, errorsC := 0,
        results := [] } :=
  ⟨⟨by decide, by decide, by decide⟩,
   C10_archives_disabled_counts_but_silent {} [Pattern.plain "match" false] false
     (fun _ _ => ["match\n"]) (fun _ => []) "/r/a.zip" "a.zip"
     (by decide) (by decide) (by decide)⟩

end FileFinder
